import Mathlib

/-!
Verification of `src/app/stocktransfer.py` against its specification.

The Python source is shallowly embedded: pure fragments become Lean
functions, the browser-driven loops become functions over oracles that
describe what the remote pages return, currency amounts become `ℚ`
(the claims under scrutiny are about counts, ordering and exact
algebraic identities, which the rational model captures exactly), and
Python's `None` becomes `Option`.
-/

namespace StockTake

/-! ## Retry/Backoff driver (`fetch_with_retry`, lines 338-356)

The accessor abstracts `page.goto`: attempt number `i` (0-based) yields
the response `accessor i`.  The driver's observable behaviour is the
returned response (or the `None` sentinel) together with how many times
it slept for `delay_on_rate_limit`; we return both. -/

/-- A navigation response as far as `fetch_with_retry` inspects it:
only its HTTP `status` field is read. -/
structure Response where
  status : Nat
deriving DecidableEq, Repr

/-- The `while retries < max_retries` loop of `fetch_with_retry`:
`fuel = max_retries - retries` counts the remaining loop iterations,
`attempt` is the index of the next `page.goto`, `sleeps` counts the
`asyncio.sleep(delay_on_rate_limit)` calls so far.  A response whose
status is not 429 is returned at once; a 429 sleeps once and retries. -/
def fetchWithRetryGo (accessor : Nat → Response) : Nat → Nat → Nat → Option Response × Nat
  | 0, _, sleeps => (none, sleeps)
  | fuel + 1, attempt, sleeps =>
    let r := accessor attempt
    if r.status ≠ 429 then (some r, sleeps)
    else fetchWithRetryGo accessor fuel (attempt + 1) (sleeps + 1)

/-- `fetch_with_retry(page, url, max_retries, delay_on_rate_limit)`:
starts with `retries = 0` and no sleeps performed; returns the response
(`none` models the Python `None` sentinel) and the number of sleeps. -/
def fetch_with_retry (accessor : Nat → Response) (maxRetries : Nat) : Option Response × Nat :=
  fetchWithRetryGo accessor maxRetries 0 0

/-! ## Unit expansion (`stock_process_sales`, lines 787-810)

A CSV row enters the loop as its stripped `Barserial` field together
with the two values produced by `parse_number` for `Quantity` and
`Cost` (`parse_number` strips `£` and thousands separators and defaults
to `0.0`; the claims quantify over these parsed values, so the
embedding starts from them, as `ℚ`). -/

/-- Lines 800-810 for a row that passed the blank-barserial check:
skip when `quantity <= 0`, otherwise compute
`cost_per_unit = cost / quantity if quantity else 0.0` and append
`int(quantity)` copies of `(barserial, cost_per_unit)`.  For positive
`quantity`, Python's `int` truncation equals the floor. -/
def expandRow (barserial : String) (quantity cost : ℚ) : List (String × ℚ) :=
  if quantity ≤ 0 then []
  else
    let costPerUnit := if quantity ≠ 0 then cost / quantity else 0
    List.replicate (Int.toNat ⌊quantity⌋) (barserial, costPerUnit)

/-- One iteration of the row loop (lines 787-810): rows whose stripped
barserial is blank are skipped before any parsing is used
(`MAX_CART_ITEM_OPENS` is `None`, so the barcode-limit check never
fires). The row is `(barserialField, parsedQuantity, parsedCost)`. -/
def rowUnits (r : String × ℚ × ℚ) : List (String × ℚ) :=
  if r.1.trim = "" then [] else expandRow r.1.trim r.2.1 r.2.2

/-- The full `units` list accumulated over the CSV rows, in row order. -/
def buildUnits (rows : List (String × ℚ × ℚ)) : List (String × ℚ) :=
  rows.flatMap rowUnits

/-! ## Batching (`open_cart_items_per_unit`, lines 582-754)

The loop `while i < len(units): batch = units[i:min(i+batch_size,len)]
... i = batch_end` with the only used batch size, 20.  `chunk20F`
carries the list length as structural fuel so that the function reduces
definitionally; `chunk20` instantiates the fuel.  For a nonempty list,
`units[i:i+20]` is the head plus the next 19 elements and the loop
resumes after them, which is exactly the cons case below. -/

/-- Slicing loop with explicit fuel (an upper bound on the list length,
so the fuel never runs out on the intended calls). -/
def chunk20F : Nat → List α → List (List α)
  | 0, _ => []
  | _, [] => []
  | fuel + 1, x :: xs => (x :: xs.take 19) :: chunk20F fuel (xs.drop 19)

/-- Partition into consecutive slices of 20; the final slice may be
shorter.  This is the batch sequence the checkout driver iterates. -/
def chunk20 (l : List α) : List (List α) :=
  chunk20F l.length l

/-! ## Grouping and the batch total (lines 634-719)

`grouped_items = defaultdict(list)` filled in batch order: keys appear
in first-occurrence order and each key maps to the list of that key's
unit costs in batch order. -/

/-- Distinct elements in first-occurrence order (the iteration order of
a Python dict whose keys were inserted in list order).  The fuel is an
upper bound on the list length. -/
def firstKeysF : Nat → List String → List String
  | 0, _ => []
  | _, [] => []
  | fuel + 1, k :: rest => k :: firstKeysF fuel (rest.filter (fun x => x != k))

/-- Distinct keys of a list in first-occurrence order. -/
def firstKeys (l : List String) : List String :=
  firstKeysF l.length l

/-- The `grouped_items` dict of a batch, as an association list in key
first-occurrence order; each key maps to its unit costs in batch order. -/
def groupedItems (batch : List (String × ℚ)) : List (String × List ℚ) :=
  (firstKeys (batch.map Prod.fst)).map
    (fun k => (k, (batch.filter (fun p => p.1 == k)).map Prod.snd))

/-- Lines 700-706: `batch_total = 0.0` then for each grouped item add
`len(costs) * costs[0]`; this value (and nothing read from the page) is
what is filled into the payment field (lines 709-719). -/
def batchTotal (gs : List (String × List ℚ)) : ℚ :=
  gs.foldl (fun acc g => acc + (g.2.length : ℚ) * g.2.headD 0) 0

/-- Modelled from the spec's wording of the cross-check: the sum over
the batch's distinct keys of (group size × canonical costPerUnit),
where the group size is the number of batch entries with that key and
the canonical costPerUnit is the first unitCost occurring for that key. -/
def specBatchTotal (batch : List (String × ℚ)) : ℚ :=
  ((firstKeys (batch.map Prod.fst)).map
    (fun k => ((batch.map Prod.fst).count k : ℚ) *
      ((batch.find? (fun p => p.1 == k)).elim 0 Prod.snd))).sum

/-! ## The per-batch checkout loop (lines 582-754)

Per batch the driver navigates home, clicks Sale, and tries to extract
a cart id from the resulting URL with `re.search(r"/cart/(\d+)/items")`.
That extraction is the only part of the remote interaction the claims
depend on, so it is abstracted as an oracle from the batch index to the
extracted id (`none` when the regex does not match).  On `none` the
source logs an error, sets `i = batch_end` and `continue`s: nothing of
the batch is entered and the loop proceeds with the next batch. -/

/-- Observable outcome of one batch of the checkout loop. -/
inductive BatchOutcome where
  /-- Cart id extraction failed: error logged, batch abandoned. -/
  | skipped : BatchOutcome
  /-- Cart id extracted: the distinct barcodes entered via the search
  box (in first-occurrence order, lines 644-647) and the independently
  computed total filled into the payment field (lines 700-719). -/
  | processed (cartId : Nat) (entered : List String) (total : ℚ) : BatchOutcome
deriving DecidableEq, Repr

/-- The barcodes entered into the cart by a batch's run. -/
def enteredItems : BatchOutcome → List String
  | .skipped => []
  | .processed _ e _ => e

/-- The body of the batch loop for one batch, given the cart id the
page yielded for it (lines 607-719). -/
def runBatch (cartId : Option Nat) (batch : List (String × ℚ)) : BatchOutcome :=
  match cartId with
  | none => .skipped
  | some cid =>
    .processed cid (firstKeys (batch.map Prod.fst)) (batchTotal (groupedItems batch))

/-- The batch loop over the chunked unit list; `n` is the 0-based batch
index (the source's `batch_num` is `n + 1`). -/
def openCartGo (cartId : Nat → Option Nat) : Nat → List (List (String × ℚ)) → List BatchOutcome
  | _, [] => []
  | n, b :: bs => runBatch (cartId n) b :: openCartGo cartId (n + 1) bs

/-- `open_cart_items_per_unit(page, units, batch_size=20, ...)`:
outcome of every batch, in order. -/
def openCartItemsPerUnit (cartId : Nat → Option Nat) (units : List (String × ℚ)) :
    List BatchOutcome :=
  openCartGo cartId 0 (chunk20 units)

/-! ## Tabular aggregator (`stock_process`, lines 508-531) -/

/-- One scraped table row tagged with the category path that produced
it (the `(path.copy(), row)` pairs accumulated by the crawler). -/
structure LeafRecord where
  path : List String
  cells : List String
deriving DecidableEq, Repr

/-- The fixed leaf column names (line 512-515 and line 403). -/
def leafHeaders : List String :=
  ["Barserial", "Name", "Quantity", "Retail", "Cost", "VAT", "Net", "Total Margin", "Margin %"]

/-- `max_depth = max(len(path) for path, _ in rows)` (line 509); with
base 0 this agrees with Python's `max` on every nonempty record set,
and `stock_process` only reaches this line when `rows` is nonempty. -/
def maxDepthOf (rows : List LeafRecord) : Nat :=
  (rows.map (fun r => r.path.length)).foldr max 0

/-- `category_headers = [f"Category Level {i+1}" for i in range(max_depth)]`. -/
def categoryHeaders (d : Nat) : List String :=
  (List.range d).map (fun i => "Category Level " ++ toString (i + 1))

/-- The header row written at line 527. -/
def headerFor (rows : List LeafRecord) : List String :=
  categoryHeaders (maxDepthOf rows) ++ leafHeaders

/-- One data row (lines 529-531):
`padded_path = path + [""] * (max_depth - len(path))` then
`writer.writerow(padded_path + row)`; Python's `[""] * k` is empty for
`k ≤ 0`, matching truncated subtraction. -/
def dataRow (d : Nat) (r : LeafRecord) : List String :=
  (r.path ++ List.replicate (d - r.path.length) "") ++ r.cells

/-! ## Hierarchical crawler (`explore_category`, lines 368-450)

A crawled node is abstracted as the data `explore_category` reads from
its rendered page: the first header cell of the valuation table (or
`none` when the selector finds nothing), whether the empty-marker first
body cell matches `/no/i`, the body rows, and the linked subcategories
(each link's text is stored on the child node).  Rate limiting and
session closure are outside the claims settled here, so navigation is
assumed to succeed. -/

/-- A node of the category tree together with what its page renders. -/
inductive PageTree where
  | node (name : String) (headerFirst : Option String) (emptyMarker : Bool)
      (rows : List (List String)) (children : List PageTree) : PageTree
deriving Repr

/-- The link text under which a node was reached. -/
def PageTree.name : PageTree → String
  | .node n _ _ _ _ => n

mutual

/-- `explore_category(page, url, path)` (lines 385-450): classify the
table, emit records for this node, and recurse into subcategories with
`path + [subcat["name"]]` (`TEST_FIRST_TOP_CATEGORY_ONLY` is `False`,
so no child is skipped).  Lines 394-405: with no table header, an
empty-marker row yields one record of the current path with blank leaf
cells; otherwise the branch yields nothing. -/
def explore : PageTree → List String → List LeafRecord
  | .node _ none marker _ _, path =>
    if marker then [⟨path, List.replicate 9 ""⟩] else []
  | .node _ (some h) _ rows children, path =>
    if h.toLower = "barserial" then rows.map (fun r => ⟨path, r⟩)
    else exploreChildren children path

/-- The subcategory loop of lines 440-448, concatenating child results
in rendered order. -/
def exploreChildren : List PageTree → List String → List LeafRecord
  | [], _ => []
  | c :: cs, path => explore c (path ++ [c.name]) ++ exploreChildren cs path

end

/-- Lines 394-405 in isolation: the branch of `explore_category` taken
when no table header is found.  The second component lists the log
lines printed inside this branch — the source prints nothing in either
sub-branch (in particular no warning when neither a table nor an
empty marker is present). -/
def exploreNoHeaderBranch (path : List String) (emptyMarker : Bool) :
    List LeafRecord × List String :=
  if emptyMarker then ([⟨path, List.replicate 9 ""⟩], []) else ([], [])

/-! ## Refund input parsing (`process_refunds_from_file`, lines 966-983)

Lines are stripped; blank lines are skipped silently; `int(line)`
failures print a warning naming the line number and content and the
loop continues; successes are appended in order.  `String.toInt?`
models Python's `int` on the sign-and-digits forms exercised here
(Python additionally accepts a leading plus sign and underscore digit
grouping). -/

/-- `line.strip()`: drop leading and trailing whitespace. -/
def stripChars (cs : List Char) : List Char :=
  ((cs.dropWhile Char.isWhitespace).reverse.dropWhile Char.isWhitespace).reverse

/-- Value of a nonempty all-digit character sequence. -/
def digitsVal? (cs : List Char) : Option Nat :=
  if cs.isEmpty then none
  else if cs.all Char.isDigit then
    some (cs.foldl (fun acc c => 10 * acc + (c.toNat - 48)) 0)
  else none

/-- Python's `int(...)` on an already-stripped line: an optional sign
followed by at least one decimal digit (Python additionally accepts
underscore digit grouping, not exercised by these inputs). -/
def pyInt? (cs : List Char) : Option Int :=
  match cs with
  | '-' :: ds => (digitsVal? ds).map (fun n => -(n : Int))
  | '+' :: ds => (digitsVal? ds).map (fun n => (n : Int))
  | ds => (digitsVal? ds).map (fun n => (n : Int))

/-- The line loop, with `n` the 1-based line number of the next line
(`enumerate(lines, start=1)`).  Returns the parsed ids in order and the
(line number, stripped content) of each warned-about line. -/
def parseReceiptIdsGo : Nat → List String → List Int × List (Nat × String)
  | _, [] => ([], [])
  | n, l :: ls =>
    let t := stripChars l.toList
    let rest := parseReceiptIdsGo (n + 1) ls
    if t.isEmpty then rest
    else
      match pyInt? t with
      | some v => (v :: rest.1, rest.2)
      | none => (rest.1, (n, t.asString) :: rest.2)

/-- The receipt-id list and warnings produced from the input file's lines. -/
def parseReceiptIds (lines : List String) : List Int × List (Nat × String) :=
  parseReceiptIdsGo 1 lines

/-! ## Refund hint parsing (`process_refunds`, lines 861-873)

The source runs `re.search(r"£[\d,]+\.?\d*\s*/\s*£([\d,]+\.?\d*)", hint)`
and fills the refund-amount field with `match.group(1).replace(',', '')`.
For this particular pattern a greedy left-to-right scan is exact: each
character class (`[\d,]`, `\d`, `\s`) is disjoint from the literal that
has to follow it (`.`, `/`, `£`), so the backtracking engine never has
to give back characters, and `re.search` tries start positions left to
right, which `searchHint` mirrors.  `Char.isDigit`/`Char.isWhitespace`
model `\d`/`\s` on the ASCII-plus-pound texts at hand. -/

/-- Does the character match the class `[\d,]`? -/
def isDigitCommaChar (c : Char) : Bool := c.isDigit || c == ','

/-- Match `[\d,]+\.?\d*` at the front of `cs`; on success return the
matched amount text and the remaining characters. -/
def matchAmountTail (cs : List Char) : Option (List Char × List Char) :=
  let intPart := cs.takeWhile isDigitCommaChar
  let r1 := cs.dropWhile isDigitCommaChar
  if intPart.isEmpty then none
  else
    match r1 with
    | c :: r2 =>
      if c = '.' then
        some (intPart ++ c :: r2.takeWhile Char.isDigit, r2.dropWhile Char.isDigit)
      else some (intPart, r1)
    | [] => some (intPart, r1)

/-- Match `\s*/\s*£` at the front of `cs`; on success return the rest. -/
def matchSepTail (cs : List Char) : Option (List Char) :=
  match cs.dropWhile Char.isWhitespace with
  | c :: r2 =>
    if c = '/' then
      match r2.dropWhile Char.isWhitespace with
      | d :: r4 => if d = '£' then some r4 else none
      | [] => none
    else none
  | [] => none

/-- Match the whole pattern anchored at the front of `cs`, returning
capture group 1 (the second amount) on success. -/
def matchHintAt (cs : List Char) : Option (List Char) :=
  match cs with
  | c :: r0 =>
    if c = '£' then
      match matchAmountTail r0 with
      | some (_, r1) =>
        match matchSepTail r1 with
        | some r4 =>
          match matchAmountTail r4 with
          | some (g, _) => some g
          | none => none
        | none => none
      | none => none
    else none
  | [] => none

/-- `re.search`: try every start position left to right. -/
def searchHint : List Char → Option (List Char)
  | [] => none
  | c :: cs =>
    match matchHintAt (c :: cs) with
    | some g => some g
    | none => searchHint cs

/-- The value filled into the refund-amount field for a card whose hint
text is `hint` (lines 869-872): group 1 with commas removed; `none`
when the pattern does not match, in which case no fill happens. -/
def refundFill (hint : String) : Option String :=
  (searchHint hint.toList).map (fun g => (g.filter (fun c => c != ',')).asString)

/-- An amount text: integer part (digits and thousands separators)
optionally followed by a decimal point and fraction digits. -/
def amountChars (intPart : List Char) (fracPart : Option (List Char)) : List Char :=
  intPart ++ (match fracPart with | none => [] | some d => '.' :: d)

/-! ## C1: the retry/backoff contract -/

/-- Behaviour of the retry loop on an accessor that rate-limits the
`j` attempts starting at `a` and then answers without rate limiting. -/
theorem fetchWithRetryGo_spec (accessor : Nat → Response) :
    ∀ (fuel a s j : Nat),
      (∀ i, i < j → (accessor (a + i)).status = 429) →
      (accessor (a + j)).status ≠ 429 →
      fetchWithRetryGo accessor fuel a s =
        if j < fuel then (some (accessor (a + j)), s + j) else (none, s + fuel) := by
  intro fuel
  induction fuel with
  | zero =>
    intro a s j _ _
    simp [fetchWithRetryGo]
  | succ fuel ih =>
    intro a s j h429 hok
    cases j with
    | zero =>
      simp only [Nat.add_zero] at hok
      simp [fetchWithRetryGo, hok]
    | succ j =>
      have h0 : (accessor a).status = 429 := by
        have := h429 0 (Nat.succ_pos j)
        simpa using this
      have step : ∀ i, i < j → (accessor (a + 1 + i)).status = 429 := by
        intro i hi
        have h := h429 (i + 1) (by omega)
        have e : a + (i + 1) = a + 1 + i := by omega
        rwa [e] at h
      have hok2 : (accessor (a + 1 + j)).status ≠ 429 := by
        have e : a + (j + 1) = a + 1 + j := by omega
        rwa [e] at hok
      have hrec := ih (a + 1) (s + 1) j step hok2
      simp only [fetchWithRetryGo, h0, ne_eq, not_true_eq_false, if_false]
      rw [hrec]
      have e1 : a + 1 + j = a + (j + 1) := by omega
      have e2 : s + 1 + j = s + (j + 1) := by omega
      have e3 : s + 1 + fuel = s + (fuel + 1) := by omega
      rw [e1, e2, e3]
      simp [Nat.succ_lt_succ_iff]

/-- **C1** (confirmed).  For an accessor that returns rate-limited
responses on the first `k` attempts and a non-rate-limited response
(of any status, including errors) on attempt `k`, `fetch_with_retry`
returns that response iff `k < maxRetries` (sleeping exactly `k`
times, so a non-429 first response returns immediately with no sleep),
returns the `None` sentinel otherwise, and in all cases sleeps exactly
`min k maxRetries` times. -/
theorem fetch_with_retry_spec (accessor : Nat → Response) (maxRetries k : Nat)
    (h429 : ∀ i, i < k → (accessor i).status = 429)
    (hok : (accessor k).status ≠ 429) :
    (k < maxRetries → fetch_with_retry accessor maxRetries = (some (accessor k), k))
      ∧ (maxRetries ≤ k → fetch_with_retry accessor maxRetries = (none, maxRetries))
      ∧ (fetch_with_retry accessor maxRetries).2 = min k maxRetries := by
  have h := fetchWithRetryGo_spec accessor maxRetries 0 0 k
    (by simpa using h429) (by simpa using hok)
  simp only [Nat.zero_add] at h
  unfold fetch_with_retry
  rw [h]
  refine ⟨fun hk => by rw [if_pos hk], fun hk => by rw [if_neg (Nat.not_lt.mpr hk)], ?_⟩
  by_cases hk : k < maxRetries
  · rw [if_pos hk]
    simp
    omega
  · rw [if_neg hk]
    simp
    omega

/-- Witness for C1: two rate-limited responses then a 200, with
`max_retries = 5`, gives back the 200 after exactly two sleeps. -/
theorem fetch_with_retry_spec_witness :
    fetch_with_retry (fun i => ⟨if i < 2 then 429 else 200⟩) 5 = (some ⟨200⟩, 2)
      ∧ (fetch_with_retry (fun i => ⟨if i < 2 then 429 else 200⟩) 5).2 = min 2 5 := by
  have h := fetch_with_retry_spec (fun i => ⟨if i < 2 then 429 else 200⟩) 5 2
    (by decide) (by decide)
  exact ⟨h.1 (by decide), h.2.2⟩

/-! ## C3: batching is an exact partition -/

/-- `chunk20F` ignores the exact fuel as long as it dominates the
list length. -/
theorem chunk20F_eq_of_le : ∀ (f1 f2 : Nat) (l : List α),
    l.length ≤ f1 → l.length ≤ f2 → chunk20F f1 l = chunk20F f2 l := by
  intro f1
  induction f1 with
  | zero =>
    intro f2 l h1 _
    have : l = [] := List.eq_nil_of_length_eq_zero (Nat.le_zero.mp h1)
    subst this
    cases f2 <;> rfl
  | succ f1 ih =>
    intro f2 l h1 h2
    cases l with
    | nil => cases f2 <;> rfl
    | cons x xs =>
      cases f2 with
      | zero => simp at h2
      | succ f2 =>
        simp only [List.length_cons] at h1 h2
        simp only [chunk20F]
        rw [ih f2 (xs.drop 19) (by simp only [List.length_drop]; omega)
          (by simp only [List.length_drop]; omega)]

/-- Unfolding of `chunk20` on a nonempty list: the first batch is the
first 20 units and the loop continues after them. -/
theorem chunk20_cons (x : α) (xs : List α) :
    chunk20 (x :: xs) = (x :: xs.take 19) :: chunk20 (xs.drop 19) := by
  unfold chunk20
  simp only [List.length_cons, chunk20F]
  rw [chunk20F_eq_of_le xs.length (xs.drop 19).length (xs.drop 19)
    (by simp [List.length_drop]) (le_refl _)]

/-- Concatenating the batches gives back the unit sequence. -/
theorem chunk20_join (l : List α) : (chunk20 l).flatten = l := by
  suffices h : ∀ (n : Nat) (l : List α), l.length ≤ n → (chunk20 l).flatten = l from
    h l.length l (le_refl _)
  intro n
  induction n with
  | zero =>
    intro l hl
    have : l = [] := List.eq_nil_of_length_eq_zero (Nat.le_zero.mp hl)
    subst this
    rfl
  | succ n ih =>
    intro l hl
    cases l with
    | nil => rfl
    | cons x xs =>
      rw [chunk20_cons, List.flatten_cons,
        ih (xs.drop 19) (by simp [List.length_drop] at hl ⊢; omega)]
      simp [List.take_append_drop]

/-- The number of batches is `⌈n / 20⌉`, i.e. `(n + 19) / 20`. -/
theorem chunk20_length (l : List α) : (chunk20 l).length = (l.length + 19) / 20 := by
  suffices h : ∀ (n : Nat) (l : List α), l.length ≤ n →
      (chunk20 l).length = (l.length + 19) / 20 from h l.length l (le_refl _)
  intro n
  induction n with
  | zero =>
    intro l hl
    have : l = [] := List.eq_nil_of_length_eq_zero (Nat.le_zero.mp hl)
    subst this
    simp [chunk20, chunk20F]
  | succ n ih =>
    intro l hl
    cases l with
    | nil => simp [chunk20, chunk20F]
    | cons x xs =>
      rw [chunk20_cons]
      simp only [List.length_cons]
      rw [ih (xs.drop 19) (by simp [List.length_drop] at hl ⊢; omega)]
      simp only [List.length_drop]
      omega

/-- Every batch except possibly the last has exactly 20 units. -/
theorem chunk20_dropLast (l : List α) : ∀ b ∈ (chunk20 l).dropLast, b.length = 20 := by
  suffices h : ∀ (n : Nat) (l : List α), l.length ≤ n →
      ∀ b ∈ (chunk20 l).dropLast, b.length = 20 from h l.length l (le_refl _)
  intro n
  induction n with
  | zero =>
    intro l hl
    have : l = [] := List.eq_nil_of_length_eq_zero (Nat.le_zero.mp hl)
    subst this
    intro b hb
    simp [chunk20, chunk20F] at hb
  | succ n ih =>
    intro l hl
    cases l with
    | nil => intro b hb; simp [chunk20, chunk20F] at hb
    | cons x xs =>
      rw [chunk20_cons]
      cases hrest : chunk20 (xs.drop 19) with
      | nil => intro b hb; simp at hb
      | cons c cs =>
        intro b hb
        rw [List.dropLast_cons₂] at hb
        rcases List.mem_cons.mp hb with hb1 | hb2
        · subst hb1
          have hne : xs.drop 19 ≠ [] := by
            intro hnil
            rw [hnil] at hrest
            exact List.cons_ne_nil c cs hrest.symm
          have h19 : 19 < xs.length := by
            by_contra hc
            exact hne (List.drop_eq_nil_of_le (by omega))
          simp [List.length_take]
          omega
        · have := ih (xs.drop 19) (by simp [List.length_drop] at hl ⊢; omega) b
          rw [hrest] at this
          exact this hb2

/-- **C3** (confirmed).  With `batchSize = 20` the batch driver
partitions the unit sequence into `⌈n / 20⌉` consecutive batches: all
batches except possibly the last have exactly 20 units, and the
batches concatenated in processing order are the original sequence. -/
theorem chunk20_partition_spec (units : List (String × ℚ)) :
    (chunk20 units).flatten = units
      ∧ (chunk20 units).length = (units.length + 19) / 20
      ∧ ∀ b ∈ (chunk20 units).dropLast, b.length = 20 :=
  ⟨chunk20_join units, chunk20_length units, chunk20_dropLast units⟩

/-- Witness for C3 on 45 concrete units: three batches, and the first
batch (a member of `dropLast`) has exactly 20 units. -/
theorem chunk20_partition_spec_witness :
    (chunk20 (List.replicate 45 ("A", (1 : ℚ)))).flatten = List.replicate 45 ("A", (1 : ℚ))
      ∧ (chunk20 (List.replicate 45 ("A", (1 : ℚ)))).length = 3
      ∧ (List.replicate 20 ("A", (1 : ℚ))).length = 20 := by
  have h := chunk20_partition_spec (List.replicate 45 ("A", (1 : ℚ)))
  exact ⟨h.1, h.2.1.trans (by decide), h.2.2 (List.replicate 20 ("A", (1 : ℚ))) (by decide)⟩

/-! ## C8: a failed cart-id extraction is scoped to its batch -/

/-- Each position of the batch-outcome list is determined by that
batch's chunk and that batch's cart-id extraction alone. -/
theorem openCartGo_getElem (cartId : Nat → Option Nat) :
    ∀ (bs : List (List (String × ℚ))) (n k : Nat),
      (openCartGo cartId n bs)[k]? = (bs[k]?).map (fun b => runBatch (cartId (n + k)) b) := by
  intro bs
  induction bs with
  | nil => intro n k; simp [openCartGo]
  | cons b bs ih =>
    intro n k
    cases k with
    | zero => simp [openCartGo]
    | succ k =>
      simp only [openCartGo, List.getElem?_cons_succ]
      rw [ih (n + 1) k]
      have e : n + 1 + k = n + (k + 1) := by omega
      rw [e]

/-- The loop yields one outcome per batch. -/
theorem openCartGo_length (cartId : Nat → Option Nat) :
    ∀ (bs : List (List (String × ℚ))) (n : Nat),
      (openCartGo cartId n bs).length = bs.length := by
  intro bs
  induction bs with
  | nil => intro n; rfl
  | cons b bs ih => intro n; simp [openCartGo, ih (n + 1)]

/-- **C8** (confirmed).  If batch `k`'s cart identifier cannot be
extracted, that batch's outcome is `skipped` (error logged, none of its
items entered), while every batch `j` — before or after — still gets
the outcome computed from its own chunk and its own cart-id extraction,
and no batch is dropped from the run. -/
theorem openCart_failed_batch_spec (cartId : Nat → Option Nat)
    (units : List (String × ℚ)) (k : Nat) (hk : cartId k = none) :
    (openCartItemsPerUnit cartId units)[k]? =
        ((chunk20 units)[k]?).map (fun _ => BatchOutcome.skipped)
      ∧ (∀ o, (openCartItemsPerUnit cartId units)[k]? = some o → enteredItems o = [])
      ∧ (∀ j, (openCartItemsPerUnit cartId units)[j]? =
          ((chunk20 units)[j]?).map (fun b => runBatch (cartId j) b))
      ∧ (openCartItemsPerUnit cartId units).length = (chunk20 units).length := by
  have hget : ∀ j, (openCartItemsPerUnit cartId units)[j]? =
      ((chunk20 units)[j]?).map (fun b => runBatch (cartId j) b) := by
    intro j
    unfold openCartItemsPerUnit
    rw [openCartGo_getElem]
    simp
  refine ⟨?_, ?_, hget, openCartGo_length cartId (chunk20 units) 0⟩
  · rw [hget k]
    cases hc : (chunk20 units)[k]? with
    | none => rfl
    | some b => simp [runBatch, hk]
  · intro o ho
    rw [hget k] at ho
    cases hc : (chunk20 units)[k]? with
    | none => rw [hc] at ho; simp at ho
    | some b =>
      rw [hc] at ho
      simp only [Option.map_some', Option.some.injEq] at ho
      rw [← ho]
      simp [runBatch, hk, enteredItems]

/-- Witness for C8: 21 units make two batches; the cart id of batch 0
is unavailable, so batch 0 is skipped while batch 1 is still processed
with its own cart id, entered barcodes and total. -/
theorem openCart_failed_batch_spec_witness :
    (openCartItemsPerUnit (fun i => if i = 0 then none else some 7)
        (List.replicate 21 ("A", (1 : ℚ))))[0]? = some BatchOutcome.skipped
      ∧ (openCartItemsPerUnit (fun i => if i = 0 then none else some 7)
        (List.replicate 21 ("A", (1 : ℚ))))[1]? =
          some (BatchOutcome.processed 7 ["A"] 1) := by
  have h := openCart_failed_batch_spec (fun i => if i = 0 then none else some 7)
    (List.replicate 21 ("A", (1 : ℚ))) 0 rfl
  have echunk : chunk20 (List.replicate 21 ("A", (1 : ℚ)))
      = [List.replicate 20 ("A", 1), [("A", 1)]] := by decide
  constructor
  · rw [h.1, echunk]
    rfl
  · rw [h.2.2.1 1, echunk]
    show some (runBatch (some 7) [("A", (1 : ℚ))]) = some (BatchOutcome.processed 7 ["A"] 1)
    have e1 : firstKeys (List.map Prod.fst [("A", (1 : ℚ))]) = ["A"] := by decide
    have e2 : groupedItems [("A", (1 : ℚ))] = [("A", [1])] := by decide
    unfold runBatch
    rw [e1, e2]
    norm_num [batchTotal]

/-! ## C2 and C10: unit expansion -/

/-- **C2 counterexample**.  A row with parsed quantity `3/2` and cost
`5` produces one unit, not `3/2` units: the emitted unit count is the
truncation of the quantity, so it differs from a fractional quantity. -/
theorem expandRow_fractional_counterexample :
    (expandRow "A" ((3 : ℚ)/2) 5).length = 1
      ∧ ¬ (((expandRow "A" ((3 : ℚ)/2) 5).length : ℚ) = (3 : ℚ)/2) := by
  have hfl : ⌊(3 : ℚ)/2⌋ = 1 := by norm_num
  have e : expandRow "A" ((3 : ℚ)/2) 5 = List.replicate 1 ("A", 5 / ((3 : ℚ)/2)) := by
    unfold expandRow
    rw [if_neg (by norm_num : ¬ ((3 : ℚ)/2 ≤ 0))]
    rw [if_pos (by norm_num : (3 : ℚ)/2 ≠ 0), hfl]
    rfl
  rw [e]
  norm_num

/-- **C2 amended** (corrected).  For a row whose parsed quantity is a
positive integer `n`, expansion produces exactly `n` units, all equal
to `(key, cost / n)`; any row with non-positive quantity produces no
units; and such a row is skipped without aborting: deleting it from the
row sequence leaves the accumulated unit list unchanged. -/
theorem expandRow_integer_spec (k : String) (c : ℚ) :
    (∀ n : Nat, 0 < n → expandRow k (n : ℚ) c = List.replicate n (k, c / (n : ℚ)))
      ∧ (∀ q : ℚ, q ≤ 0 → expandRow k q c = [])
      ∧ (∀ (pre post : List (String × ℚ × ℚ)) (r : String × ℚ × ℚ), r.2.1 ≤ 0 →
          buildUnits (pre ++ r :: post) = buildUnits (pre ++ post)) := by
  refine ⟨?_, ?_, ?_⟩
  · intro n hn
    have hpos : (0 : ℚ) < (n : ℚ) := by exact_mod_cast hn
    have hq : ¬ ((n : ℚ) ≤ 0) := not_le.mpr hpos
    have hne : (n : ℚ) ≠ 0 := ne_of_gt hpos
    unfold expandRow
    rw [if_neg hq]
    simp [hne, Int.floor_natCast]
  · intro q hq
    unfold expandRow
    rw [if_pos hq]
  · intro pre post r hr
    have hz : rowUnits r = [] := by
      unfold rowUnits
      by_cases hb : r.1.trim = ""
      · rw [if_pos hb]
      · rw [if_neg hb]
        unfold expandRow
        rw [if_pos hr]
    unfold buildUnits
    simp [List.flatMap_append, hz]

/-- Witness for C2 (amended): integer quantity 2 yields two identical
units, quantity `-1` yields none, and removing a non-positive row from
a three-row file leaves the other rows' units untouched. -/
theorem expandRow_integer_spec_witness :
    expandRow "B" ((2 : Nat) : ℚ) 3 = List.replicate 2 ("B", 3 / ((2 : Nat) : ℚ))
      ∧ expandRow "B" (-1 : ℚ) 3 = []
      ∧ buildUnits ([("X", 1, 2)] ++ ("B", -1, 3) :: [("Y", 1, 4)])
          = buildUnits ([("X", 1, 2)] ++ [("Y", 1, 4)]) := by
  have h := expandRow_integer_spec "B" 3
  exact ⟨h.1 2 (by decide), h.2.1 (-1) (by norm_num),
    h.2.2 [("X", 1, 2)] [("Y", 1, 4)] ("B", -1, 3) (by norm_num)⟩

/-- **C10 counterexample**.  For the fractional-quantity row
`q = 3/2, c = 0` the emitted units' cost sum is `0`, which is not
strictly less than the row's cost `0`: the claimed strict inequality
fails when the parsed cost is not positive. -/
theorem expandRow_zero_cost_counterexample :
    ((expandRow "A" ((3 : ℚ)/2) 0).map Prod.snd).sum = 0
      ∧ ¬ (((expandRow "A" ((3 : ℚ)/2) 0).map Prod.snd).sum < 0) := by
  have hfl : ⌊(3 : ℚ)/2⌋ = 1 := by norm_num
  have e : expandRow "A" ((3 : ℚ)/2) 0 = List.replicate 1 ("A", 0 / ((3 : ℚ)/2)) := by
    unfold expandRow
    rw [if_neg (by norm_num : ¬ ((3 : ℚ)/2 ≤ 0))]
    rw [if_pos (by norm_num : (3 : ℚ)/2 ≠ 0), hfl]
    rfl
  rw [e]
  norm_num

/-- **C10 amended** (corrected).  A row with positive non-integer
parsed quantity `q` and parsed cost `c` produces exactly `⌊q⌋` units
(int truncation toward zero, which is the floor for positive values),
each with `unitCost = c / q` computed from the untruncated quantity;
the summed unitCost is `⌊q⌋ · (c / q)`, which is strictly less than
`c` whenever `c > 0`. -/
theorem expandRow_truncation_spec (k : String) (q c : ℚ) (h1 : 0 < q)
    (h2 : ((⌊q⌋ : ℚ)) ≠ q) :
    (expandRow k q c).length = (⌊q⌋).toNat
      ∧ (∀ u ∈ expandRow k q c, u = (k, c / q))
      ∧ ((expandRow k q c).map Prod.snd).sum = (((⌊q⌋).toNat : ℚ)) * (c / q)
      ∧ (0 < c → ((expandRow k q c).map Prod.snd).sum < c) := by
  have hq0 : ¬ (q ≤ 0) := not_le.mpr h1
  have hqne : q ≠ 0 := ne_of_gt h1
  have hexp : expandRow k q c = List.replicate (⌊q⌋).toNat (k, c / q) := by
    unfold expandRow
    rw [if_neg hq0]
    simp [hqne]
  have hsum : ((expandRow k q c).map Prod.snd).sum = (((⌊q⌋).toNat : ℚ)) * (c / q) := by
    rw [hexp]
    simp [List.map_replicate, List.sum_replicate, nsmul_eq_mul]
  refine ⟨by rw [hexp]; simp, ?_, hsum, ?_⟩
  · intro u hu
    rw [hexp] at hu
    exact List.eq_of_mem_replicate hu
  · intro hc
    rw [hsum]
    have hfl : (((⌊q⌋).toNat : ℚ)) = ((⌊q⌋ : ℚ)) := by
      have hnn : (0 : ℤ) ≤ ⌊q⌋ := Int.floor_nonneg.mpr (le_of_lt h1)
      exact_mod_cast Int.toNat_of_nonneg hnn
    rw [hfl]
    have hlt : ((⌊q⌋ : ℚ)) < q := lt_of_le_of_ne (Int.floor_le q) h2
    have hcq : 0 < c / q := div_pos hc h1
    calc ((⌊q⌋ : ℚ)) * (c / q) < q * (c / q) := mul_lt_mul_of_pos_right hlt hcq
      _ = c := by field_simp

/-- Witness for C10 (amended): `q = 5/2, c = 7` gives 2 units whose
costs sum to `28/5`, strictly below 7. -/
theorem expandRow_truncation_spec_witness :
    (expandRow "C" ((5 : ℚ)/2) 7).length = 2
      ∧ ((expandRow "C" ((5 : ℚ)/2) 7).map Prod.snd).sum < 7 := by
  have h := expandRow_truncation_spec "C" ((5 : ℚ)/2) 7 (by norm_num) (by norm_num)
  have hfl : ⌊(5 : ℚ)/2⌋ = 2 := by norm_num
  refine ⟨h.1.trans (by rw [hfl]; rfl), h.2.2.2 (by norm_num)⟩

/-! ## C4: aggregator column geometry -/

/-- Every member of a list of naturals is bounded by the `foldr max 0`
the aggregator computes. -/
theorem le_foldr_max (x : Nat) (xs : List Nat) (hx : x ∈ xs) : x ≤ xs.foldr max 0 := by
  induction xs with
  | nil => cases hx
  | cons a l ih =>
    rcases List.mem_cons.mp hx with h | h
    · subst h; exact le_max_left _ _
    · exact le_trans (ih h) (le_max_right _ _)

/-- **C4 counterexample**.  For the record set containing the single
record `(path = ["A"], cells = ["x"])`, the header has
`maxDepth + 9 = 10` columns but the emitted data row has only 2: a
record whose cell list does not have exactly 9 entries is written
as-is, so its row width differs from the header's. -/
theorem aggregator_row_width_counterexample :
    (dataRow (maxDepthOf [⟨["A"], ["x"]⟩]) ⟨["A"], ["x"]⟩).length = 2
      ∧ (headerFor [⟨["A"], ["x"]⟩]).length = 10
      ∧ (dataRow (maxDepthOf [⟨["A"], ["x"]⟩]) ⟨["A"], ["x"]⟩).length
          ≠ (headerFor [⟨["A"], ["x"]⟩]).length := by decide

/-- **C4 amended** (corrected).  The header always has `maxDepth + 9`
columns; every emitted data row has `maxDepth + (its record's leaf
cell count)` columns — equal to the header's exactly when the record
has 9 leaf cells, as rows scraped from well-formed 9-column leaf tables
and empty-marker records are; and every record's path is right-padded
with exactly `maxDepth - len(path)` empty strings between path and
cells, with the path kept intact (no truncation, no over-padding). -/
theorem aggregator_row_spec (rows : List LeafRecord) (r : LeafRecord) (hr : r ∈ rows) :
    (headerFor rows).length = maxDepthOf rows + 9
      ∧ r.path.length ≤ maxDepthOf rows
      ∧ dataRow (maxDepthOf rows) r =
          r.path ++ List.replicate (maxDepthOf rows - r.path.length) "" ++ r.cells
      ∧ (dataRow (maxDepthOf rows) r).length = maxDepthOf rows + r.cells.length
      ∧ (r.cells.length = 9 →
          (dataRow (maxDepthOf rows) r).length = (headerFor rows).length) := by
  have hle : r.path.length ≤ maxDepthOf rows :=
    le_foldr_max _ _ (List.mem_map_of_mem (fun x => x.path.length) hr)
  have hhdr : (headerFor rows).length = maxDepthOf rows + 9 := by
    simp [headerFor, categoryHeaders, leafHeaders]
  have hrow : (dataRow (maxDepthOf rows) r).length = maxDepthOf rows + r.cells.length := by
    simp only [dataRow, List.length_append, List.length_replicate]
    omega
  exact ⟨hhdr, hle, by simp [dataRow, List.append_assoc], hrow,
    fun h9 => by rw [hrow, hhdr, h9]⟩

/-- Witness for C4 (amended) on a two-record set of depth 2: the header
has 11 columns and the shallow 9-cell record's row also has 11. -/
theorem aggregator_row_spec_witness :
    (headerFor [⟨["A", "B"], ["a", "b", "c", "d", "e", "f", "g", "h", "i"]⟩,
        ⟨["A"], List.replicate 9 ""⟩]).length = 11
      ∧ (dataRow (maxDepthOf [⟨["A", "B"], ["a", "b", "c", "d", "e", "f", "g", "h", "i"]⟩,
          ⟨["A"], List.replicate 9 ""⟩]) ⟨["A"], List.replicate 9 ""⟩).length
        = (headerFor [⟨["A", "B"], ["a", "b", "c", "d", "e", "f", "g", "h", "i"]⟩,
          ⟨["A"], List.replicate 9 ""⟩]).length := by
  have h := aggregator_row_spec
    [⟨["A", "B"], ["a", "b", "c", "d", "e", "f", "g", "h", "i"]⟩, ⟨["A"], List.replicate 9 ""⟩]
    ⟨["A"], List.replicate 9 ""⟩ (by decide)
  exact ⟨h.1.trans (by decide), h.2.2.2.2 (by decide)⟩

/-! ## C6: the crawler's no-header branch -/

/-- **C6 counterexample**.  At a node with no table header and no
empty-marker row, the branch of lines 394-405 returns no records *and
prints nothing*: the run of this branch produces an empty log, so no
warning distinguishes it from the empty-marker outcome. -/
theorem explore_no_table_silent_counterexample :
    exploreNoHeaderBranch ["Consoles"] false = ([], []) := by decide

/-- **C6 amended** (corrected).  At a crawled node whose page has no
table header: with an empty-marker row the crawler returns exactly one
LeafRecord carrying the current path and nine blank leaf cells, and
without one it returns no records; in both cases the branch terminates
silently (no log line) and never recurses — the node's children and
rows are ignored entirely. -/
theorem explore_no_header_spec (name : String) (marker : Bool)
    (rows : List (List String)) (children : List PageTree) (path : List String) :
    explore (.node name none marker rows children) path = (exploreNoHeaderBranch path marker).1
      ∧ (marker = true →
          explore (.node name none marker rows children) path
            = [⟨path, List.replicate 9 ""⟩])
      ∧ (marker = false → explore (.node name none marker rows children) path = [])
      ∧ explore (.node name none marker rows children) path
          = explore (.node name none marker [] []) path
      ∧ (exploreNoHeaderBranch path marker).2 = [] := by
  cases marker <;> simp [explore, exploreNoHeaderBranch]

/-- Witness for C6 (amended): a marker node with a would-be child and
leftover rows still emits exactly the one blank record, and a bare
markerless node emits nothing. -/
theorem explore_no_header_spec_witness :
    explore (.node "N" none true [["r1"]]
        [.node "C" (some "Barserial") false [["z"]] []]) ["Games"]
      = [⟨["Games"], List.replicate 9 ""⟩]
      ∧ explore (.node "M" none false [] []) ["Games"] = [] :=
  ⟨(explore_no_header_spec "N" true [["r1"]]
      [.node "C" (some "Barserial") false [["z"]] []] ["Games"]).2.1 rfl,
    (explore_no_header_spec "M" false [] [] ["Games"]).2.2.1 rfl⟩

/-! ## C7: refund input parsing -/

/-- **C7 counterexample**.  The input file with lines `5`, `5` parses
to the receipt-id list `[5, 5]`: a duplicate identifier is *kept*, not
dropped. -/
theorem receiptIds_duplicates_kept_counterexample :
    (parseReceiptIds ["5", "5"]).1 = [5, 5]
      ∧ ((parseReceiptIds ["5", "5"]).1.count 5 = 2) := by decide

/-- **C7 amended** (corrected).  The parsed list contains, in input
order, the integer value of every non-blank numeric line — duplicates
included; blank lines are skipped silently; exactly the non-blank
non-numeric lines produce a warning each (and parsing is total, so no
line aborts the run). -/
theorem parseReceiptIds_spec (lines : List String) :
    (parseReceiptIds lines).1 = lines.filterMap (fun l => pyInt? (stripChars l.toList))
      ∧ (parseReceiptIds lines).2.length
          = (lines.filter (fun l =>
              !(stripChars l.toList).isEmpty && (pyInt? (stripChars l.toList)).isNone)).length := by
  suffices h : ∀ (n : Nat) (ls : List String),
      (parseReceiptIdsGo n ls).1 = ls.filterMap (fun l => pyInt? (stripChars l.toList))
        ∧ (parseReceiptIdsGo n ls).2.length
            = (ls.filter (fun l =>
                !(stripChars l.toList).isEmpty && (pyInt? (stripChars l.toList)).isNone)).length
    from h 1 lines
  intro n ls
  induction ls generalizing n with
  | nil => exact ⟨rfl, rfl⟩
  | cons l ls ih =>
    have hemp : (stripChars l.toList).isEmpty = true → pyInt? (stripChars l.toList) = none := by
      intro he
      have : stripChars l.toList = [] := by
        cases hc : stripChars l.toList with
        | nil => rfl
        | cons c cs => rw [hc] at he; simp [List.isEmpty] at he
      rw [this]
      rfl
    by_cases hb : (stripChars l.toList).isEmpty = true
    · simp only [parseReceiptIdsGo, hb, if_true, List.filterMap_cons, hemp hb,
        List.filter_cons, hb, Bool.false_and, Bool.not_true, if_false]
      exact ih (n + 1)
    · rw [Bool.not_eq_true] at hb
      cases hv : pyInt? (stripChars l.toList) with
      | some v =>
        simp only [parseReceiptIdsGo, hb, Bool.false_eq_true, if_false, hv,
          List.filterMap_cons, List.filter_cons, Bool.not_false, Option.isNone_some,
          Bool.and_false]
        exact ⟨by rw [(ih (n + 1)).1], by simpa using (ih (n + 1)).2⟩
      | none =>
        simp only [parseReceiptIdsGo, hb, Bool.false_eq_true, if_false, hv,
          List.filterMap_cons, List.filter_cons, Bool.not_false, Option.isNone_none,
          Bool.and_true, if_true, List.length_cons]
        exact ⟨(ih (n + 1)).1, by rw [(ih (n + 1)).2]⟩

/-- Witness for C7 (amended) on a concrete file: a blank line, a
non-numeric line, and three numeric lines (two of them equal) give
three ids in order and exactly one warning. -/
theorem parseReceiptIds_spec_witness :
    (parseReceiptIds ["", "abc", " 42 ", "7", "7"]).1 = [42, 7, 7]
      ∧ (parseReceiptIds ["", "abc", " 42 ", "7", "7"]).2.length = 1 := by
  have h := parseReceiptIds_spec ["", "abc", " 42 ", "7", "7"]
  exact ⟨h.1.trans (by decide), h.2.trans (by decide)⟩

/-! ## C5: the independently computed batch total -/

/-- The source's running-total loop is the sum of the per-group
contributions. -/
theorem batchTotal_foldl_sum (gs : List (String × List ℚ)) (a : ℚ) :
    gs.foldl (fun acc g => acc + (g.2.length : ℚ) * g.2.headD 0) a
      = a + (gs.map (fun g => (g.2.length : ℚ) * g.2.headD 0)).sum := by
  induction gs generalizing a with
  | nil => simp
  | cons g gs ih =>
    simp only [List.foldl_cons, List.map_cons, List.sum_cons, ih]
    ring

/-- `find?` returns the head of the filtered list. -/
theorem find?_eq_head?_filter (p : α → Bool) (l : List α) :
    l.find? p = (l.filter p).head? := by
  induction l with
  | nil => rfl
  | cons a l ih =>
    by_cases h : p a
    · rw [List.find?_cons_of_pos _ h, List.filter_cons_of_pos h, List.head?_cons]
    · rw [List.find?_cons_of_neg _ h, List.filter_cons_of_neg h, ih]

/-- A key's group in `grouped_items` has as many costs as the key has
occurrences in the batch. -/
theorem groupCosts_length (batch : List (String × ℚ)) (k : String) :
    ((batch.filter (fun p => p.1 == k)).map Prod.snd).length
      = (batch.map Prod.fst).count k := by
  induction batch with
  | nil => rfl
  | cons p bs ih =>
    by_cases h : p.1 == k
    · simp [List.filter_cons, h, List.count_cons, ih]
    · simp [List.filter_cons, h, List.count_cons, ih]

/-- `costs[0]` of a key's group is the first unitCost the batch holds
for that key. -/
theorem groupCosts_head (batch : List (String × ℚ)) (k : String) :
    ((batch.filter (fun p => p.1 == k)).map Prod.snd).headD 0
      = ((batch.find? (fun p => p.1 == k)).elim 0 Prod.snd) := by
  rw [find?_eq_head?_filter]
  cases batch.filter (fun p => p.1 == k) with
  | nil => rfl
  | cons a l => rfl

/-- **C5** (confirmed).  The amount filled into the payment field —
the running total over `grouped_items` — equals the sum over the
batch's distinct keys of (group size × canonical costPerUnit), where
the canonical costPerUnit is the first unitCost of the group; it is a
function of the batch data alone (no remote page is consulted). -/
theorem batchTotal_matches_spec (batch : List (String × ℚ)) :
    batchTotal (groupedItems batch) = specBatchTotal batch := by
  unfold batchTotal specBatchTotal groupedItems
  rw [batchTotal_foldl_sum, zero_add, List.map_map]
  refine congrArg List.sum (List.map_congr_left ?_)
  intro k _
  simp only [Function.comp_apply]
  rw [groupCosts_length, groupCosts_head]

/-- Witness for C5: the spec's own example `{A: 3 × 1.50, B: 2 × 4.00}`
yields a submitted total of `12.50` on both sides. -/
theorem batchTotal_matches_spec_witness :
    batchTotal (groupedItems
        [("A", (3 : ℚ)/2), ("A", (3 : ℚ)/2), ("A", (3 : ℚ)/2), ("B", 4), ("B", 4)]) = 25/2
      ∧ specBatchTotal
        [("A", (3 : ℚ)/2), ("A", (3 : ℚ)/2), ("A", (3 : ℚ)/2), ("B", 4), ("B", 4)] = 25/2 := by
  have e : groupedItems
      [("A", (3 : ℚ)/2), ("A", (3 : ℚ)/2), ("A", (3 : ℚ)/2), ("B", 4), ("B", 4)]
        = [("A", [(3 : ℚ)/2, (3 : ℚ)/2, (3 : ℚ)/2]), ("B", [(4 : ℚ), 4])] := rfl
  have e2 : batchTotal [("A", [(3 : ℚ)/2, (3 : ℚ)/2, (3 : ℚ)/2]), ("B", [(4 : ℚ), 4])]
      = 25/2 := by
    norm_num [batchTotal]
  have h := batchTotal_matches_spec
    [("A", (3 : ℚ)/2), ("A", (3 : ℚ)/2), ("A", (3 : ℚ)/2), ("B", 4), ("B", 4)]
  constructor
  · rw [e]; exact e2
  · rw [← h, e]; exact e2

/-! ## C9: the refund hint pattern -/

/-- `takeWhile`/`dropWhile` split an append exactly at the boundary
where the predicate first fails. -/
theorem takeWhile_app (p : Char → Bool) :
    ∀ (a b : List Char), (∀ c ∈ a, p c = true) →
      (∀ c, b.head? = some c → p c = false) →
      (a ++ b).takeWhile p = a ∧ (a ++ b).dropWhile p = b := by
  intro a
  induction a with
  | nil =>
    intro b _ hb
    cases b with
    | nil => exact ⟨rfl, rfl⟩
    | cons c cs =>
      have hc := hb c rfl
      simp [List.takeWhile_cons, List.dropWhile_cons, hc]
  | cons x xs ih =>
    intro b ha hb
    have hx : p x = true := ha x (List.mem_cons_self x xs)
    have hrec := ih b (fun c hc => ha c (List.mem_cons_of_mem x hc)) hb
    simp [List.takeWhile_cons, List.dropWhile_cons, hx, hrec.1, hrec.2]

/-- `[\d,]+\.?\d*` consumes exactly a well-formed amount when a space
follows it. -/
theorem matchAmountTail_amount (i : List Char) (f : Option (List Char)) (r : List Char)
    (hi : i ≠ []) (hall : ∀ c ∈ i, isDigitCommaChar c = true)
    (hf : ∀ d, f = some d → ∀ c ∈ d, c.isDigit = true) :
    matchAmountTail (amountChars i f ++ ' ' :: r) = some (amountChars i f, ' ' :: r) := by
  have hiE : i.isEmpty = false := by
    cases i with
    | nil => exact absurd rfl hi
    | cons a l => rfl
  cases f with
  | none =>
    have hsp : ∀ c, (' ' :: r).head? = some c → isDigitCommaChar c = false := by
      intro c hc
      simp only [List.head?_cons, Option.some.injEq] at hc
      subst hc
      decide
    obtain ⟨ht, hd⟩ := takeWhile_app isDigitCommaChar i (' ' :: r) hall hsp
    simp only [amountChars, List.append_nil] at ht hd ⊢
    simp only [matchAmountTail, ht, hd, hiE, Bool.false_eq_true, if_false]
    rw [if_neg (by decide : ¬ (' ' = '.'))]
  | some d =>
    have e : amountChars i (some d) ++ ' ' :: r = i ++ '.' :: (d ++ ' ' :: r) := by
      simp [amountChars]
    have hsp1 : ∀ c, ('.' :: (d ++ ' ' :: r)).head? = some c → isDigitCommaChar c = false := by
      intro c hc
      simp only [List.head?_cons, Option.some.injEq] at hc
      subst hc
      decide
    obtain ⟨ht, hd1⟩ := takeWhile_app isDigitCommaChar i ('.' :: (d ++ ' ' :: r)) hall hsp1
    have hsp2 : ∀ c, (' ' :: r).head? = some c → Char.isDigit c = false := by
      intro c hc
      simp only [List.head?_cons, Option.some.injEq] at hc
      subst hc
      decide
    obtain ⟨ht2, hd2⟩ := takeWhile_app Char.isDigit d (' ' :: r) (hf d rfl) hsp2
    rw [e]
    simp only [matchAmountTail, ht, hd1, hiE, Bool.false_eq_true, if_false]
    simp [amountChars, ht2, hd2]

/-- **C9** (confirmed).  For every hint text of the shape
`£X / £Y Refunded`, with `X` and `Y` amounts made of digits and
thousands separators with an optional decimal part, the refund driver
fills the refund-amount field with `Y` stripped of commas. -/
theorem refund_hint_spec (iX iY : List Char) (fX fY : Option (List Char))
    (hiX : iX ≠ []) (haX : ∀ c ∈ iX, isDigitCommaChar c = true)
    (hfX : ∀ d, fX = some d → ∀ c ∈ d, c.isDigit = true)
    (hiY : iY ≠ []) (haY : ∀ c ∈ iY, isDigitCommaChar c = true)
    (hfY : ∀ d, fY = some d → ∀ c ∈ d, c.isDigit = true) :
    refundFill (String.mk ('£' :: (amountChars iX fX ++ ' ' :: '/' :: ' ' :: '£' ::
        (amountChars iY fY ++ ' ' :: "Refunded".toList))))
      = some ((amountChars iY fY).filter (fun c => c != ',')).asString := by
  have hX := matchAmountTail_amount iX fX
    ('/' :: ' ' :: '£' :: (amountChars iY fY ++ ' ' :: "Refunded".toList)) hiX haX hfX
  have hY := matchAmountTail_amount iY fY "Refunded".toList hiY haY hfY
  have hsep : matchSepTail (' ' :: '/' :: ' ' :: '£' ::
      (amountChars iY fY ++ ' ' :: "Refunded".toList))
        = some (amountChars iY fY ++ ' ' :: "Refunded".toList) := by
    simp +decide [matchSepTail, List.dropWhile_cons]
  have hAt : matchHintAt ('£' :: (amountChars iX fX ++ ' ' :: '/' :: ' ' :: '£' ::
      (amountChars iY fY ++ ' ' :: "Refunded".toList))) = some (amountChars iY fY) := by
    simp only [matchHintAt, hX, hsep, hY, if_pos]
  have hsearch : searchHint ('£' :: (amountChars iX fX ++ ' ' :: '/' :: ' ' :: '£' ::
      (amountChars iY fY ++ ' ' :: "Refunded".toList))) = some (amountChars iY fY) := by
    unfold searchHint
    rw [hAt]
  unfold refundFill
  show (searchHint ('£' :: (amountChars iX fX ++ ' ' :: '/' :: ' ' :: '£' ::
      (amountChars iY fY ++ ' ' :: "Refunded".toList)))).map
        (fun g => (g.filter (fun c => c != ',')).asString)
      = some ((amountChars iY fY).filter (fun c => c != ',')).asString
  rw [hsearch]
  rfl

/-- Witness for C9: the spec's example hint `£0.00 / £17.50 Refunded`
yields a filled refund amount of `17.50`. -/
theorem refund_hint_spec_witness :
    refundFill "£0.00 / £17.50 Refunded" = some "17.50" := by
  have h := refund_hint_spec ['0'] ['1', '7'] (some ['0', '0']) (some ['5', '0'])
    (by decide) (by decide) (by intro d hd; cases hd; decide)
    (by decide) (by decide) (by intro d hd; cases hd; decide)
  have e1 : String.mk ('£' :: (amountChars ['0'] (some ['0', '0']) ++ ' ' :: '/' :: ' ' :: '£' ::
      (amountChars ['1', '7'] (some ['5', '0']) ++ ' ' :: "Refunded".toList)))
        = "£0.00 / £17.50 Refunded" := by decide
  have e2 : ((amountChars ['1', '7'] (some ['5', '0'])).filter (fun c => c != ',')).asString
      = "17.50" := by decide
  rw [e1, e2] at h
  exact h

end StockTake
